import Mathlib

/-!
Shallow embedding of `attentions.py` from the `calibrated_attention`
repository: a family of attention-score scaling / temperature mechanisms
for causal transformer attention.

Tensors are modelled as functions over `Fin`; floating-point arithmetic is
modelled by exact real arithmetic, except where a claim is specifically
about IEEE special values (`inf` / `NaN`), for which an extended value type
`EFloat` mirroring IEEE-754 special-case semantics is used.
-/

noncomputable section

namespace CalAttn

open Finset

/-! ### Softmax and adaptive-temperature softmax (lines 12-29) -/

/-- Plain softmax along the last axis, restricted to one row:
`torch.nn.functional.softmax(logits, dim=-1)`. -/
def softmaxRow {m : ℕ} (s : Fin m → ℝ) : Fin m → ℝ :=
  fun j => Real.exp (s j) / ∑ j', Real.exp (s j')

/-- Shannon entropy of the baseline softmax of one row, exactly as computed
at lines 18-19: `sum(-p * log(p + 1e-9), dim=-1)`. -/
def rowEntropy {m : ℕ} (s : Fin m → ℝ) : ℝ :=
  ∑ j, -softmaxRow s j * Real.log (softmaxRow s j + 1e-9)

/-- Quartic polynomial of line 22 with the line-17 coefficients
`[-0.037, 0.481, -2.3, 4.917, -1.791]`, highest degree first. -/
def polyFit (H : ℝ) : ℝ :=
  (-0.037) * H ^ 4 + 0.481 * H ^ 3 + (-2.3) * H ^ 2 + 4.917 * H + (-1.791)

/-- Per-row inverse temperature `beta` of lines 24-27:
`torch.where(entropy > 0.5, maximum(poly_result, 1.0), 1.0)`. -/
def betaOf {m : ℕ} (s : Fin m → ℝ) : ℝ :=
  if 0.5 < rowEntropy s then max (polyFit (rowEntropy s)) 1 else 1

/-- One row of `adaptive_temperature_softmax`: `softmax(logits * beta, dim=-1)`
with `beta` computed from this row (line 29). -/
def adaptiveRow {m : ℕ} (s : Fin m → ℝ) : Fin m → ℝ :=
  softmaxRow (fun j => s j * betaOf s)

/-- The function `adaptive_temperature_softmax` (lines 12-29).  All of its
tensor operations (`softmax(dim=-1)`, `sum(dim=-1, keepdim=True)`,
broadcasting `beta` of shape `(..,1)`) act row-wise, so the matrix version
is the row computation applied to each row. -/
def adaptive_temperature_softmax {r m : ℕ} (L : Fin r → Fin m → ℝ) :
    Fin r → Fin m → ℝ :=
  fun i => softmaxRow (fun j => L i j * betaOf (L i))

lemma sum_exp_pos {m : ℕ} [NeZero m] (s : Fin m → ℝ) :
    0 < ∑ j', Real.exp (s j') :=
  Finset.sum_pos (fun j _ => Real.exp_pos (s j)) Finset.univ_nonempty

lemma softmaxRow_nonneg {m : ℕ} [NeZero m] (s : Fin m → ℝ) (j : Fin m) :
    0 ≤ softmaxRow s j :=
  div_nonneg (Real.exp_nonneg _) (le_of_lt (sum_exp_pos s))

lemma softmaxRow_sum_one {m : ℕ} [NeZero m] (s : Fin m → ℝ) :
    ∑ j, softmaxRow s j = 1 := by
  unfold softmaxRow
  rw [← Finset.sum_div]
  exact div_self (ne_of_gt (sum_exp_pos s))

/-- Claim C2: for every logits tensor, `adaptive_temperature_softmax` returns
a valid probability distribution along the last axis: every entry is
non-negative and each row sums to 1, and the inverse temperature is computed
per row (the output row depends only on the corresponding input row, not on
the other rows). -/
theorem C2_adaptive_softmax_is_distribution {r m : ℕ} [NeZero m]
    (L : Fin r → Fin m → ℝ) (i : Fin r) :
    (∀ j, 0 ≤ adaptive_temperature_softmax L i j) ∧
    (∑ j, adaptive_temperature_softmax L i j) = 1 ∧
    (∀ L' : Fin r → Fin m → ℝ, L' i = L i →
      adaptive_temperature_softmax L' i = adaptive_temperature_softmax L i) := by
  refine ⟨fun j => softmaxRow_nonneg _ j, softmaxRow_sum_one _, ?_⟩
  intro L' h
  unfold adaptive_temperature_softmax
  rw [h]

/-- Witness for C2 at the concrete logits matrix `(fun _ _ => 0) : Fin 1 → Fin 2 → ℝ`. -/
theorem C2_adaptive_softmax_is_distribution_witness :
    0 ≤ adaptive_temperature_softmax (fun (_ : Fin 1) (_ : Fin 2) => (0:ℝ)) 0 0 ∧
    (∑ j, adaptive_temperature_softmax (fun (_ : Fin 1) (_ : Fin 2) => (0:ℝ)) 0 j) = 1 :=
  ⟨(C2_adaptive_softmax_is_distribution (fun _ _ => 0) 0).1 0,
   (C2_adaptive_softmax_is_distribution (fun _ _ => 0) 0).2.1⟩

/-- Claim C3: rows whose baseline-softmax entropy is at most `0.5` get
`beta = 1` and an output equal to the plain softmax of the row; rows with
entropy over `0.5` get `beta = max(poly(H), 1)`; in all cases `beta ≥ 1`. -/
theorem C3_beta_selection {m : ℕ} (s : Fin m → ℝ) :
    (rowEntropy s ≤ 0.5 → betaOf s = 1 ∧ adaptiveRow s = softmaxRow s) ∧
    (0.5 < rowEntropy s → betaOf s = max (polyFit (rowEntropy s)) 1) ∧
    1 ≤ betaOf s := by
  refine ⟨fun h => ?_, fun h => ?_, ?_⟩
  · have hb : betaOf s = 1 := by
      unfold betaOf
      rw [if_neg (not_lt.mpr h)]
    refine ⟨hb, ?_⟩
    unfold adaptiveRow
    rw [hb]
    simp [softmaxRow]
  · unfold betaOf
    rw [if_pos h]
  · unfold betaOf
    by_cases h : 0.5 < rowEntropy s
    · rw [if_pos h]; exact le_max_right _ _
    · rw [if_neg h]

/-- Witness for C3: the single-entry row `fun _ => 0 : Fin 1 → ℝ` has baseline
softmax `1`, hence entropy `-log(1 + 1e-9) ≤ 0.5`, and the theorem yields
`beta = 1` and agreement with the plain softmax there. -/
theorem C3_beta_selection_witness :
    rowEntropy (fun (_ : Fin 1) => (0:ℝ)) ≤ 0.5 ∧
    betaOf (fun (_ : Fin 1) => (0:ℝ)) = 1 ∧
    adaptiveRow (fun (_ : Fin 1) => (0:ℝ)) = softmaxRow (fun (_ : Fin 1) => (0:ℝ)) := by
  have hent : rowEntropy (fun (_ : Fin 1) => (0:ℝ)) ≤ 0.5 := by
    have hsm : softmaxRow (fun (_ : Fin 1) => (0:ℝ)) 0 = 1 := by
      simp [softmaxRow]
    have : rowEntropy (fun (_ : Fin 1) => (0:ℝ)) =
        -1 * Real.log (1 + 1e-9) := by
      unfold rowEntropy
      rw [Fin.sum_univ_one, hsm]
    rw [this]
    have hlog : 0 ≤ Real.log (1 + 1e-9) := Real.log_nonneg (by norm_num)
    nlinarith
  exact ⟨hent, (C3_beta_selection (fun _ => 0)).1 hent⟩

/-! ### Projections, head reshaping and causal SDPA (lines 54-68)

The batch dimension is dropped: every operation in the source acts on each
batch element independently.  An input is `x : Fin n → Fin (h*dh) → ℝ`
(sequence position, embedding coordinate), with `dim = h * dh` so that
`head_dim = dim / heads = dh`. -/

/-- The four projections owned by `AttentionBase.__init__` (line 61):
`to_q`, `to_k`, `to_v` without bias and `to_out` with bias. -/
structure AttnParams (h dh : ℕ) where
  wq : Fin (h * dh) → Fin (h * dh) → ℝ
  wk : Fin (h * dh) → Fin (h * dh) → ℝ
  wv : Fin (h * dh) → Fin (h * dh) → ℝ
  wo : Fin (h * dh) → Fin (h * dh) → ℝ
  bo : Fin (h * dh) → ℝ

/-- Application of `nn.Linear(dim, dim, bias=False)`: `y[i,f] = sum_g W[f,g] * x[i,g]`. -/
def linearNB {n d : ℕ} (W : Fin d → Fin d → ℝ) (x : Fin n → Fin d → ℝ) :
    Fin n → Fin d → ℝ :=
  fun i f => ∑ g, W f g * x i g

/-- Application of `nn.Linear(dim, dim, bias=True)` (the `to_out` projection). -/
def linearB {n d : ℕ} (W : Fin d → Fin d → ℝ) (b : Fin d → ℝ)
    (x : Fin n → Fin d → ℝ) : Fin n → Fin d → ℝ :=
  fun i f => (∑ g, W f g * x i g) + b f

lemma head_index_lt {h dh : ℕ} (hd : Fin h) (t : Fin dh) :
    hd.1 * dh + t.1 < h * dh :=
  Nat.lt_of_lt_of_le (by rw [Nat.succ_mul]; omega)
    (Nat.mul_le_mul_right dh hd.2)

/-- The einops rearrange `'b n (h d) -> b h n d'`: embedding coordinate
`hd * dh + t` of position `i` becomes coordinate `t` of head `hd`. -/
def toHeads {n h dh : ℕ} (y : Fin n → Fin (h * dh) → ℝ) :
    Fin h → Fin n → Fin dh → ℝ :=
  fun hd i t => y i ⟨hd.1 * dh + t.1, head_index_lt hd t⟩

/-- The einops rearrange `'b h n d -> b n (h d)'`, inverse reshaping. -/
def fromHeads {n h dh : ℕ} [NeZero dh] (z : Fin h → Fin n → Fin dh → ℝ) :
    Fin n → Fin (h * dh) → ℝ :=
  fun i f =>
    z ⟨f.1 / dh, (Nat.div_lt_iff_lt_mul (Nat.pos_of_ne_zero (NeZero.ne dh))).mpr f.2⟩
      i ⟨f.1 % dh, Nat.mod_lt _ (Nat.pos_of_ne_zero (NeZero.ne dh))⟩

/-- Dot product of a query row and a key row. -/
def dotProd {dh : ℕ} (u v : Fin dh → ℝ) : ℝ := ∑ t, u t * v t

/-- Row-wise causal softmax over logits `l`: position `i` attends to
positions `j ≤ i` only, which is what `is_causal=True` does in
`scaled_dot_product_attention` (future logits receive `-inf`, giving them
exactly zero weight). -/
def causalSoftmax {n : ℕ} (l : Fin n → Fin n → ℝ) (i j : Fin n) : ℝ :=
  if j ≤ i then Real.exp (l i j) / ∑ j' ∈ Finset.Iic i, Real.exp (l i j') else 0

/-- `torch.nn.functional.scaled_dot_product_attention(q, k, v, is_causal=True,
scale=s)`: logits are `(q_i . k_j) * s`, weights are the causal softmax, the
output is the weight-averaged values. -/
def sdpaCausal {n dh : ℕ} (s : ℝ) (q k v : Fin n → Fin dh → ℝ) :
    Fin n → Fin dh → ℝ :=
  fun i t => ∑ j ∈ Finset.Iic i,
    causalSoftmax (fun i' j' => dotProd (q i') (k j') * s) i j * v j t

/-- Per-head queries of an attention module, `rearrange(to_q(x))`. -/
def headsQ {n h dh : ℕ} (W : AttnParams h dh) (x : Fin n → Fin (h * dh) → ℝ) :
    Fin h → Fin n → Fin dh → ℝ :=
  toHeads (linearNB W.wq x)

/-- Per-head keys of an attention module, `rearrange(to_k(x))`. -/
def headsK {n h dh : ℕ} (W : AttnParams h dh) (x : Fin n → Fin (h * dh) → ℝ) :
    Fin h → Fin n → Fin dh → ℝ :=
  toHeads (linearNB W.wk x)

/-- Per-head values of an attention module, `rearrange(to_v(x))`. -/
def headsV {n h dh : ℕ} (W : AttnParams h dh) (x : Fin n → Fin (h * dh) → ℝ) :
    Fin h → Fin n → Fin dh → ℝ :=
  toHeads (linearNB W.wv x)

/-- `AttentionBase.forward` (lines 63-68): project, split heads, causal SDPA
with the library default scale `1/sqrt(head_dim)`, merge heads, output
projection. -/
def baseForward {n h dh : ℕ} [NeZero dh] (W : AttnParams h dh)
    (x : Fin n → Fin (h * dh) → ℝ) : Fin n → Fin (h * dh) → ℝ :=
  linearB W.wo W.bo (fromHeads (fun hd =>
    sdpaCausal (1 / Real.sqrt (dh : ℝ)) (headsQ W x hd) (headsK W x hd) (headsV W x hd)))

/-- The query tensor after the pre-multiplication `q = q * scales` used by the
pre-scaling variants; `sF hd i` is the scale broadcast over the head
dimension (shape `(1,1,n,1)` or `(1,h,n,1)` in the source). -/
def scaledQ {n h dh : ℕ} (W : AttnParams h dh) (sF : Fin h → Fin n → ℝ)
    (x : Fin n → Fin (h * dh) → ℝ) : Fin h → Fin n → Fin dh → ℝ :=
  fun hd i t => headsQ W x hd i t * sF hd i

/-- Attention weights of a pre-scaling variant: causal SDPA weights with
`scale=1.0`, the scaling having been folded into the queries. -/
def preScaledWeights {n h dh : ℕ} (W : AttnParams h dh) (sF : Fin h → Fin n → ℝ)
    (x : Fin n → Fin (h * dh) → ℝ) (hd : Fin h) : Fin n → Fin n → ℝ :=
  causalSoftmax (fun i j => dotProd (scaledQ W sF x hd i) (headsK W x hd j) * 1)

/-- Shared forward of the four pre-scaling variants (RelativeScaling1/2, Yarn,
LearnedScaling): multiply queries by the per-position scale, then
`sdpa(q, k, v, is_causal=True, scale=1.0)`. -/
def preScaledForward {n h dh : ℕ} [NeZero dh] (W : AttnParams h dh)
    (sF : Fin h → Fin n → ℝ) (x : Fin n → Fin (h * dh) → ℝ) :
    Fin n → Fin (h * dh) → ℝ :=
  linearB W.wo W.bo (fromHeads (fun hd =>
    sdpaCausal 1 (scaledQ W sF x hd) (headsK W x hd) (headsV W x hd)))

/-! ### The scaling functions (lines 8-51 and 215-225), real-valued -/

/-- The helper `log_base` (lines 8-10): `log(x) / log(base)`. -/
def log_base (x base : ℝ) : ℝ := Real.log x / Real.log base

/-- The function `yarn_scaling` (lines 32-36) at one position `p` of
`arange(n)`: `((0.1*log(p) + 1)**2) / head_dim**0.5`. -/
def yarn_scaling (headDim : ℝ) (p : ℕ) : ℝ :=
  (0.1 * Real.log p + 1) ^ 2 / Real.sqrt headDim

/-- The function `relative_scaling` (lines 39-43) at one position:
`(log_base(p, base_seq_len) / head_dim) ** 0.5`. -/
def relative_scaling (headDim baseSeqLen : ℝ) (p : ℕ) : ℝ :=
  Real.sqrt (log_base p baseSeqLen / headDim)

/-- The function `relative_scaling_2` (lines 46-51) at one position:
`((log_base(p, base_seq_len) * attn_bias) / head_dim) ** 0.5`. -/
def relative_scaling_2 (headDim bias baseSeqLen : ℝ) (p : ℕ) : ℝ :=
  Real.sqrt (log_base p baseSeqLen * bias / headDim)

/-- `AttentionLearnedScaling.create_scaling` (lines 215-225):
`base_scale = head_dim ** 0.5`, `multiplier = 1 + alpha*log(p) + beta`,
`scales = 1 / (multiplier * base_scale)`. -/
def create_scaling (headDim alpha beta : ℝ) (p : ℕ) : ℝ :=
  let base_scale := Real.sqrt headDim
  let log_seq_lens := Real.log p
  let multiplier := 1 + alpha * log_seq_lens + beta
  let scales := multiplier * base_scale
  1 / scales

/-- `AttentionRelativeScaling1.forward` (lines 82-96): head dimension is
passed as `d / self.heads` with `d = h*dh`; the scale does not depend on the
head. -/
def rs1Forward {n h dh : ℕ} [NeZero dh] (baseSeqLen : ℝ) (W : AttnParams h dh)
    (x : Fin n → Fin (h * dh) → ℝ) : Fin n → Fin (h * dh) → ℝ :=
  preScaledForward W
    (fun _ i => relative_scaling (((h * dh : ℕ) : ℝ) / (h : ℝ)) baseSeqLen i.1) x

/-- State of an `AttentionRelativeScaling2` module (lines 107-114): projection
weights, `base_seq_len`, the per-head `attn_bias` value, and the
`learned_bias` construction flag that decides whether `attn_bias` was
registered as a trainable parameter or as a fixed buffer. -/
structure RS2Module (h dh : ℕ) where
  params : AttnParams h dh
  base_seq_len : ℝ
  attn_bias : Fin h → ℝ
  learned_bias : Bool

/-- `AttentionRelativeScaling2.forward` (lines 116-130). -/
def rs2Forward {n h dh : ℕ} [NeZero dh] (M : RS2Module h dh)
    (x : Fin n → Fin (h * dh) → ℝ) : Fin n → Fin (h * dh) → ℝ :=
  preScaledForward M.params
    (fun hd i =>
      relative_scaling_2 (((h * dh : ℕ) : ℝ) / (h : ℝ)) (M.attn_bias hd)
        M.base_seq_len i.1) x

/-- `AttentionYarnScaling.forward` (lines 140-154). -/
def yarnForward {n h dh : ℕ} [NeZero dh] (W : AttnParams h dh)
    (x : Fin n → Fin (h * dh) → ℝ) : Fin n → Fin (h * dh) → ℝ :=
  preScaledForward W
    (fun _ i => yarn_scaling (((h * dh : ℕ) : ℝ) / (h : ℝ)) i.1) x

/-- `AttentionLearnedScaling.forward` (lines 227-241), with per-head `alphas`
and `betas`; `head_dim = dim / heads` as a float, fixed at construction. -/
def lsForward {n h dh : ℕ} [NeZero dh] (alphas betas : Fin h → ℝ)
    (W : AttnParams h dh) (x : Fin n → Fin (h * dh) → ℝ) :
    Fin n → Fin (h * dh) → ℝ :=
  preScaledForward W
    (fun hd i =>
      create_scaling (((h * dh : ℕ) : ℝ) / (h : ℝ)) (alphas hd) (betas hd) i.1) x

/-! ### The manually-masked variants (lines 157-185, 244-289, 292-339) -/

/-- The largest finite `float32` value, `torch.finfo(torch.float32).max`
(exactly `(2^24 - 1) * 2^104`). -/
def fmaxF32 : ℝ := 340282346638528859811704183484516925440

/-- The causal mask of lines 175-176, 268-269 and 317-318:
`mask = ones(n,n).triu(1)`; `sim.masked_fill(mask, -finfo(dtype).max)`.
Strictly-upper-triangular entries (`j > i`) become `-fm`, the most negative
finite value of the working dtype. -/
def maskedSim {n : ℕ} (fm : ℝ) (sim : Fin n → Fin n → ℝ) : Fin n → Fin n → ℝ :=
  fun i j => if i < j then -fm else sim i j

/-- Row maximum, `torch.max(sim, dim=-1, keepdim=True)[0]` on one row. -/
def rowMax {m : ℕ} [NeZero m] (s : Fin m → ℝ) : ℝ :=
  Finset.univ.sup' Finset.univ_nonempty s

/-- `exp_sim = exp(sim - sim_max)` on one row (lines 272-273). -/
def expRow {m : ℕ} [NeZero m] (s : Fin m → ℝ) : Fin m → ℝ :=
  fun j => Real.exp (s j - rowMax s)

/-- `denom = exp_sim.sum(dim=-1)` on one row (line 277). -/
def denomRow {m : ℕ} [NeZero m] (s : Fin m → ℝ) : ℝ :=
  ∑ j, expRow s j

/-- One row of `AttentionSoftmaxPlusOne`'s attention weights (lines 272-283):
`attn = exp_sim / (denom + exp(denom_bias))`. -/
def spoRow {m : ℕ} [NeZero m] (bias : ℝ) (s : Fin m → ℝ) : Fin m → ℝ :=
  fun j => expRow s j / (denomRow s + Real.exp bias)

/-- Scaled similarity matrix of one head (lines 169-172, 262-265, 311-314):
`sim = einsum('...id,...jd->...ij', q, k) / sqrt(head_dim)`. -/
def simOf {n h dh : ℕ} (W : AttnParams h dh) (x : Fin n → Fin (h * dh) → ℝ)
    (hd : Fin h) : Fin n → Fin n → ℝ :=
  fun i j => dotProd (headsQ W x hd i) (headsK W x hd j) / Real.sqrt (dh : ℝ)

/-- `AttentionSoftmaxPlusOne.forward` (lines 257-289): mask with `-fm`,
manual softmax with `exp(denom_bias)` added to the denominator, then average
values with those weights (the sum runs over all positions `j`, masked ones
included). -/
def spoForward {n h dh : ℕ} [NeZero n] [NeZero dh] (fm : ℝ)
    (denomBias : Fin h → ℝ) (W : AttnParams h dh)
    (x : Fin n → Fin (h * dh) → ℝ) : Fin n → Fin (h * dh) → ℝ :=
  linearB W.wo W.bo (fromHeads (fun hd i t =>
    ∑ j, spoRow (denomBias hd) (maskedSim fm (simOf W x hd) i) j * headsV W x hd j t))

/-- `AttentionPolyFitScaling.forward` (lines 164-185): same masked similarity,
then the adaptive-temperature softmax instead of the plain softmax. -/
def polyFitForward {n h dh : ℕ} [NeZero dh] (fm : ℝ) (W : AttnParams h dh)
    (x : Fin n → Fin (h * dh) → ℝ) : Fin n → Fin (h * dh) → ℝ :=
  linearB W.wo W.bo (fromHeads (fun hd i t =>
    ∑ j, adaptive_temperature_softmax (maskedSim fm (simOf W x hd)) i j *
      headsV W x hd j t))

/-- One row of `AttentionSoftmaxPlusFN`'s attention weights (lines 320-333):
the denominator addition is `exp(alpha * log(i) + beta)` for query position
`i`. -/
def spfnRow {m : ℕ} [NeZero m] (alpha beta : ℝ) (p : ℕ) (s : Fin m → ℝ) :
    Fin m → ℝ :=
  fun j => expRow s j / (denomRow s + Real.exp (alpha * Real.log p + beta))

/-- `AttentionSoftmaxPlusFN.forward` (lines 306-339). -/
def spfnForward {n h dh : ℕ} [NeZero n] [NeZero dh] (fm : ℝ)
    (alphas betas : Fin h → ℝ) (W : AttnParams h dh)
    (x : Fin n → Fin (h * dh) → ℝ) : Fin n → Fin (h * dh) → ℝ :=
  linearB W.wo W.bo (fromHeads (fun hd i t =>
    ∑ j, spfnRow (alphas hd) (betas hd) i.1 (maskedSim fm (simOf W x hd) i) j *
      headsV W x hd j t))

lemma expRow_pos {m : ℕ} [NeZero m] (s : Fin m → ℝ) (j : Fin m) :
    0 < expRow s j := Real.exp_pos _

lemma denomRow_pos {m : ℕ} [NeZero m] (s : Fin m → ℝ) : 0 < denomRow s :=
  Finset.sum_pos (fun j _ => expRow_pos s j) Finset.univ_nonempty

/-- The max-shifted softmax agrees with the plain softmax on every row. -/
lemma expRow_div_denomRow {m : ℕ} [NeZero m] (s : Fin m → ℝ) (j : Fin m) :
    expRow s j / denomRow s = softmaxRow s j := by
  unfold expRow denomRow softmaxRow
  simp only [expRow, Real.exp_sub]
  rw [← Finset.sum_div]
  exact div_div_div_cancel_right₀ (ne_of_gt (Real.exp_pos _)) _ _

/-- Claim C4: in `AttentionSoftmaxPlusOne` with `denom_bias = 0` the
denominator of every attention row is `sum(exp(sim - rowmax)) + 1`, every
attention weight is strictly below the corresponding plain-softmax weight,
and every attention row sums to strictly less than 1. -/
theorem C4_softmax_plus_one_denominator {m : ℕ} [NeZero m] (s : Fin m → ℝ) :
    spoRow 0 s = (fun j => expRow s j / (denomRow s + 1)) ∧
    (∀ j, spoRow 0 s j < softmaxRow s j) ∧
    (∑ j, spoRow 0 s j) < 1 := by
  have hd0 : 0 < denomRow s := denomRow_pos s
  have hform : spoRow 0 s = (fun j => expRow s j / (denomRow s + 1)) := by
    funext j
    unfold spoRow
    rw [Real.exp_zero]
  refine ⟨hform, fun j => ?_, ?_⟩
  · rw [← expRow_div_denomRow s j, hform]
    exact div_lt_div_of_pos_left (expRow_pos s j) hd0 (by linarith)
  · rw [hform]
    rw [← Finset.sum_div]
    rw [div_lt_one (by linarith)]
    calc (∑ j, expRow s j) = denomRow s := rfl
    _ < denomRow s + 1 := by linarith

/-- Witness for C4 at the concrete row `fun _ => 0 : Fin 2 → ℝ`. -/
theorem C4_softmax_plus_one_denominator_witness :
    spoRow 0 (fun (_ : Fin 2) => (0:ℝ)) 0 < softmaxRow (fun (_ : Fin 2) => (0:ℝ)) 0 ∧
    (∑ j, spoRow 0 (fun (_ : Fin 2) => (0:ℝ)) j) < 1 :=
  ⟨(C4_softmax_plus_one_denominator (fun _ => 0)).2.1 0,
   (C4_softmax_plus_one_denominator (fun _ => 0)).2.2⟩

/-! ### Causality of the sdpa-based variants -/

lemma causalSoftmax_congr {n : ℕ} {l l' : Fin n → Fin n → ℝ} {i : Fin n}
    (h : ∀ j, j ≤ i → l i j = l' i j) (j : Fin n) :
    causalSoftmax l i j = causalSoftmax l' i j := by
  unfold causalSoftmax
  by_cases hj : j ≤ i
  · rw [if_pos hj, if_pos hj, h j hj]
    congr 1
    refine Finset.sum_congr rfl (fun j' hj' => ?_)
    rw [h j' (Finset.mem_Iic.mp hj')]
  · rw [if_neg hj, if_neg hj]

lemma sdpaCausal_row_congr {n dh : ℕ} (s : ℝ)
    {q k v q' k' v' : Fin n → Fin dh → ℝ} {i : Fin n}
    (hq : q i = q' i) (hk : ∀ j, j ≤ i → k j = k' j)
    (hv : ∀ j, j ≤ i → v j = v' j) :
    sdpaCausal s q k v i = sdpaCausal s q' k' v' i := by
  funext t
  unfold sdpaCausal
  refine Finset.sum_congr rfl (fun j hj => ?_)
  have hji : j ≤ i := Finset.mem_Iic.mp hj
  rw [hv j hji, causalSoftmax_congr (fun j' hj' => by rw [hq, hk j' hj'])]

lemma linearNB_row_congr {n d : ℕ} (W : Fin d → Fin d → ℝ)
    {x x' : Fin n → Fin d → ℝ} {i : Fin n} (hx : x i = x' i) :
    linearNB W x i = linearNB W x' i := by
  funext f
  unfold linearNB
  rw [hx]

lemma toHeads_row_congr {n h dh : ℕ} {y y' : Fin n → Fin (h * dh) → ℝ}
    (hd : Fin h) {i : Fin n} (hy : y i = y' i) :
    toHeads y hd i = toHeads y' hd i := by
  funext t
  unfold toHeads
  rw [hy]

lemma headsQ_row_congr {n h dh : ℕ} (W : AttnParams h dh)
    {x x' : Fin n → Fin (h * dh) → ℝ} (hd : Fin h) {i : Fin n}
    (hx : x i = x' i) : headsQ W x hd i = headsQ W x' hd i :=
  toHeads_row_congr hd (linearNB_row_congr W.wq hx)

lemma headsK_row_congr {n h dh : ℕ} (W : AttnParams h dh)
    {x x' : Fin n → Fin (h * dh) → ℝ} (hd : Fin h) {i : Fin n}
    (hx : x i = x' i) : headsK W x hd i = headsK W x' hd i :=
  toHeads_row_congr hd (linearNB_row_congr W.wk hx)

lemma headsV_row_congr {n h dh : ℕ} (W : AttnParams h dh)
    {x x' : Fin n → Fin (h * dh) → ℝ} (hd : Fin h) {i : Fin n}
    (hx : x i = x' i) : headsV W x hd i = headsV W x' hd i :=
  toHeads_row_congr hd (linearNB_row_congr W.wv hx)

lemma outProj_row_congr {n h dh : ℕ} [NeZero dh] (W : AttnParams h dh)
    {o o' : Fin h → Fin n → Fin dh → ℝ} {i : Fin n}
    (ho : ∀ hd, o hd i = o' hd i) :
    linearB W.wo W.bo (fromHeads o) i = linearB W.wo W.bo (fromHeads o') i := by
  funext f
  unfold linearB fromHeads
  congr 1
  refine Finset.sum_congr rfl (fun g _ => ?_)
  rw [congrFun (ho _) _]

lemma preScaledForward_row_causal {n h dh : ℕ} [NeZero dh] (W : AttnParams h dh)
    (sF : Fin h → Fin n → ℝ) {x x' : Fin n → Fin (h * dh) → ℝ} (i : Fin n)
    (hx : ∀ p, p ≤ i → x p = x' p) :
    preScaledForward W sF x i = preScaledForward W sF x' i := by
  unfold preScaledForward
  refine outProj_row_congr W (fun hd => ?_)
  refine sdpaCausal_row_congr 1 ?_ (fun j hj => headsK_row_congr W hd (hx j hj))
    (fun j hj => headsV_row_congr W hd (hx j hj))
  funext t
  unfold scaledQ
  rw [congrFun (headsQ_row_congr W hd (hx i le_rfl)) t]

lemma baseForward_row_causal {n h dh : ℕ} [NeZero dh] (W : AttnParams h dh)
    {x x' : Fin n → Fin (h * dh) → ℝ} (i : Fin n)
    (hx : ∀ p, p ≤ i → x p = x' p) :
    baseForward W x i = baseForward W x' i := by
  unfold baseForward
  refine outProj_row_congr W (fun hd => ?_)
  exact sdpaCausal_row_congr _ (headsQ_row_congr W hd (hx i le_rfl))
    (fun j hj => headsK_row_congr W hd (hx j hj))
    (fun j hj => headsV_row_congr W hd (hx j hj))

/-- Claim C1 (amended): causality holds exactly for the five sdpa-based
variants — `AttentionBase`, `AttentionRelativeScaling1/2`,
`AttentionYarnScaling`, `AttentionLearnedScaling` — whose `is_causal=True`
mask gives future positions exactly zero weight: the output at position `i`
is unchanged by any change of the input at positions `> i`.  For the three
manually-masked variants this fails in exact arithmetic (see the
counterexample): `-finfo.max` masking leaves a strictly positive weight
`exp(-finfo.max - rowmax) / denom` on future positions, which vanishes only
through floating-point underflow. -/
theorem C1_causality_sdpa_variants {n h dh : ℕ} [NeZero dh]
    (W : AttnParams h dh) (baseSeqLen : ℝ) (M : RS2Module h dh)
    (alphas betas : Fin h → ℝ) (x x' : Fin n → Fin (h * dh) → ℝ) (i : Fin n)
    (hx : ∀ p, p ≤ i → x p = x' p) :
    baseForward W x i = baseForward W x' i ∧
    rs1Forward baseSeqLen W x i = rs1Forward baseSeqLen W x' i ∧
    rs2Forward M x i = rs2Forward M x' i ∧
    yarnForward W x i = yarnForward W x' i ∧
    lsForward alphas betas W x i = lsForward alphas betas W x' i :=
  ⟨baseForward_row_causal W i hx,
   preScaledForward_row_causal _ _ i hx,
   preScaledForward_row_causal _ _ i hx,
   preScaledForward_row_causal _ _ i hx,
   preScaledForward_row_causal _ _ i hx⟩

/-- Concrete projection weights for a one-head, one-dimensional module: all
linear weights `1`, output bias `0`. -/
def W1 : AttnParams 1 1 :=
  ⟨fun _ _ => 1, fun _ _ => 1, fun _ _ => 1, fun _ _ => 1, fun _ => 0⟩

/-- Concrete `AttentionRelativeScaling2` module state with the default
`base_seq_len=2048`, `attn_bias=1.5`, `learned_bias=False`. -/
def M1 : RS2Module 1 1 := ⟨W1, 2048, fun _ => 1.5, false⟩

/-- Concrete input of sequence length 2 whose position-0 entry is `0` and
whose position-1 entry is `b`. -/
def xCex (b : ℝ) : Fin 2 → Fin (1 * 1) → ℝ :=
  fun i _ => if i.1 = 1 then b else 0

/-- Witness for C1: the inputs `xCex 0` and `xCex 1` agree at every position
`≤ 0`, and all five sdpa-based forwards agree at position 0 on them. -/
theorem C1_causality_sdpa_variants_witness :
    baseForward W1 (xCex 0) 0 = baseForward W1 (xCex 1) 0 ∧
    rs1Forward 2048 W1 (xCex 0) 0 = rs1Forward 2048 W1 (xCex 1) 0 ∧
    rs2Forward M1 (xCex 0) 0 = rs2Forward M1 (xCex 1) 0 ∧
    yarnForward W1 (xCex 0) 0 = yarnForward W1 (xCex 1) 0 ∧
    lsForward (fun _ => 0) (fun _ => 0) W1 (xCex 0) 0 =
      lsForward (fun _ => 0) (fun _ => 0) W1 (xCex 1) 0 := by
  refine C1_causality_sdpa_variants W1 2048 M1 (fun _ => 0) (fun _ => 0)
    (xCex 0) (xCex 1) 0 (fun p hp => ?_)
  have hp0 : p = 0 := Fin.le_zero_iff.mp hp
  subst hp0
  rfl

lemma rowMax_two (s : Fin 2 → ℝ) : rowMax s = max (s 0) (s 1) := by
  unfold rowMax
  apply le_antisymm
  · apply Finset.sup'_le
    intro j _
    fin_cases j
    · exact le_max_left _ _
    · exact le_max_right _ _
  · exact max_le (Finset.le_sup' s (Finset.mem_univ 0))
      (Finset.le_sup' s (Finset.mem_univ 1))

/-- Exact evaluation of `AttentionSoftmaxPlusOne` (with `denom_bias = 0` and
all-ones projections) at position 0 of the length-2 input `xCex b`: the
future entry `b` enters the output with the strictly positive coefficient
`exp(-finfo.max) / (2 + exp(-finfo.max))`. -/
lemma spo_cex_eval (b : ℝ) :
    spoForward fmaxF32 (fun _ => 0) W1 (xCex b) 0 ⟨0, by decide⟩
      = Real.exp (-fmaxF32) * b / (2 + Real.exp (-fmaxF32)) := by
  haveI : Unique (Fin (1 * 1)) :=
    ⟨⟨⟨0, by decide⟩⟩, fun g => by apply Fin.ext; omega⟩
  have hq : ∀ (hd : Fin 1) (i : Fin 2) (t : Fin 1),
      headsQ W1 (xCex b) hd i t = xCex b i default := by
    intro hd i t
    simp [headsQ, toHeads, linearNB, W1, Fintype.sum_unique]
    exact congrArg _ (Subsingleton.elim _ _)
  have hk : ∀ (hd : Fin 1) (i : Fin 2) (t : Fin 1),
      headsK W1 (xCex b) hd i t = xCex b i default := by
    intro hd i t
    simp [headsK, toHeads, linearNB, W1, Fintype.sum_unique]
    exact congrArg _ (Subsingleton.elim _ _)
  have hv : ∀ (hd : Fin 1) (i : Fin 2) (t : Fin 1),
      headsV W1 (xCex b) hd i t = xCex b i default := by
    intro hd i t
    simp [headsV, toHeads, linearNB, W1, Fintype.sum_unique]
    exact congrArg _ (Subsingleton.elim _ _)
  have hx0 : xCex b 0 default = 0 := by simp [xCex]
  have hx1 : xCex b 1 default = b := by simp [xCex]
  have hrow : ∀ hd : Fin 1,
      maskedSim fmaxF32 (simOf W1 (xCex b) hd) 0 = ![0, -fmaxF32] := by
    intro hd
    funext j
    rcases (show (j : ℕ) = 0 ∨ (j : ℕ) = 1 by have := j.2; omega) with hj | hj
    · have hj' : j = 0 := Fin.ext hj
      subst hj'
      show maskedSim fmaxF32 (simOf W1 (xCex b) hd) 0 0 = _
      unfold maskedSim
      rw [if_neg (lt_irrefl _)]
      unfold simOf dotProd
      rw [Fin.sum_univ_one, hq hd 0 0, hk hd 0 0, hx0]
      simp
    · have hj' : j = 1 := Fin.ext hj
      subst hj'
      show maskedSim fmaxF32 (simOf W1 (xCex b) hd) 0 1 = _
      unfold maskedSim
      rw [if_pos (by decide : (0 : Fin 2) < 1)]
      simp
  have hM : rowMax ![(0:ℝ), -fmaxF32] = 0 := by
    rw [rowMax_two]
    simp only [Matrix.cons_val_zero, Matrix.cons_val_one, Matrix.head_cons]
    rw [max_eq_left]
    norm_num [fmaxF32]
  have ho : ∀ (hd : Fin 1) (t : Fin 1),
      (∑ j, spoRow 0 (maskedSim fmaxF32 (simOf W1 (xCex b) hd) 0) j *
        headsV W1 (xCex b) hd j t)
        = Real.exp (-fmaxF32) * b / (2 + Real.exp (-fmaxF32)) := by
    intro hd t
    rw [Fin.sum_univ_two, hrow hd, hv hd 0 t, hv hd 1 t, hx0, hx1]
    unfold spoRow denomRow expRow
    rw [Fin.sum_univ_two, hM]
    simp only [Matrix.cons_val_zero, Matrix.cons_val_one, Matrix.head_cons,
      sub_zero, Real.exp_zero, mul_zero, zero_add]
    ring
  unfold spoForward linearB fromHeads
  rw [Fintype.sum_unique]
  have hwo : ∀ (a c : Fin (1 * 1)), W1.wo a c = 1 := fun _ _ => rfl
  have hbo : ∀ (a : Fin (1 * 1)), W1.bo a = 0 := fun _ => rfl
  rw [hwo, hbo, one_mul, add_zero]
  exact ho _ _

/-- Counterexample for C1: with `denom_bias = 0` and all-ones projections,
the two length-2 inputs `xCex 0` and `xCex 1` agree at every position `≤ 0`,
yet `AttentionSoftmaxPlusOne`'s exact output at position 0 differs — the
`-finfo.max` mask leaves weight `exp(-finfo.max)/(2+exp(-finfo.max)) > 0`
on the future position, so causality fails in exact real arithmetic. -/
theorem C1_softmax_plus_one_not_causal :
    (∀ p : Fin 2, p ≤ 0 → xCex 0 p = xCex 1 p) ∧
    spoForward fmaxF32 (fun _ => 0) W1 (xCex 0) 0 ⟨0, by decide⟩ ≠
      spoForward fmaxF32 (fun _ => 0) W1 (xCex 1) 0 ⟨0, by decide⟩ := by
  constructor
  · intro p hp
    have hp0 : p = 0 := Fin.le_zero_iff.mp hp
    subst hp0
    rfl
  · rw [spo_cex_eval 0, spo_cex_eval 1]
    have hε : 0 < Real.exp (-fmaxF32) := Real.exp_pos _
    have h2 : 0 < 2 + Real.exp (-fmaxF32) := by linarith
    simp only [mul_zero, zero_div, mul_one]
    exact fun hcontra => (ne_of_gt (div_pos hε h2)) hcontra.symm

/-! ### Identity scaling (C5), the learned-scaling formula (C8), the
`learned_bias` flag (C9) and the position-1 degeneracy (C10) -/

lemma sdpaCausal_scaled_row {n dh : ℕ} (c : Fin n → ℝ) (s : ℝ)
    (q k v : Fin n → Fin dh → ℝ) (i : Fin n) (hci : c i = s) :
    sdpaCausal 1 (fun i' t => q i' t * c i') k v i = sdpaCausal s q k v i := by
  funext t
  unfold sdpaCausal
  refine Finset.sum_congr rfl (fun j hj => ?_)
  congr 1
  apply causalSoftmax_congr
  intro j' hj'
  show dotProd (fun t => q i t * c i) (k j') * 1 = dotProd (q i) (k j') * s
  unfold dotProd
  rw [mul_one, ← hci, Finset.sum_mul]
  exact Finset.sum_congr rfl (fun t _ => by ring)

lemma head_dim_cast {h dh : ℕ} [NeZero h] :
    ((h * dh : ℕ) : ℝ) / (h : ℝ) = (dh : ℝ) := by
  push_cast
  rw [mul_comm]
  exact mul_div_cancel_right₀ _ (Nat.cast_ne_zero.mpr (NeZero.ne h))

/-- Claim C5 (amended): with `alphas = betas = 0`, `create_scaling` returns
exactly `1/sqrt(head_dim)` at every position `p ≥ 1`, and
`AttentionLearnedScaling`'s forward output agrees with `AttentionBase`'s at
every position `i ≥ 1` for every input and shared projection weights.  At
position 0 the float program computes `0 * log(0) = 0 * (-inf) = NaN` (see
the counterexample), so the claim's "at every position" fails there. -/
theorem C5_learned_scaling_identity {n h dh : ℕ} [NeZero dh] [NeZero h]
    (W : AttnParams h dh) (x : Fin n → Fin (h * dh) → ℝ) (i : Fin n)
    (hi : 1 ≤ (i : ℕ)) :
    create_scaling (((h * dh : ℕ) : ℝ) / (h : ℝ)) 0 0 (i : ℕ) =
      1 / Real.sqrt ((dh : ℝ)) ∧
    lsForward (fun _ => 0) (fun _ => 0) W x i = baseForward W x i := by
  have hcs : ∀ p : ℕ,
      create_scaling (((h * dh : ℕ) : ℝ) / (h : ℝ)) 0 0 p =
        1 / Real.sqrt ((dh : ℝ)) := by
    intro p
    simp only [create_scaling, head_dim_cast]
    rw [zero_mul, add_zero, add_zero, one_mul]
  refine ⟨hcs i, ?_⟩
  unfold lsForward preScaledForward baseForward
  refine outProj_row_congr W (fun hd => ?_)
  have hsq : scaledQ W
      (fun hd' i' =>
        create_scaling (((h * dh : ℕ) : ℝ) / (h : ℝ)) ((fun _ => (0:ℝ)) hd')
          ((fun _ => (0:ℝ)) hd') i'.1) x hd
      = fun i' t => headsQ W x hd i' t *
          (fun i' : Fin n =>
            create_scaling (((h * dh : ℕ) : ℝ) / (h : ℝ)) 0 0 i'.1) i' := rfl
  rw [hsq]
  exact sdpaCausal_scaled_row _ _ _ _ _ _ (hcs i.1)

/-- Witness for C5 at `n = 2`, one head of dimension one, position `i = 1`. -/
theorem C5_learned_scaling_identity_witness :
    create_scaling (((1 * 1 : ℕ) : ℝ) / ((1 : ℕ) : ℝ)) 0 0 (((1 : Fin 2)) : ℕ) =
      1 / Real.sqrt (((1 : ℕ) : ℝ)) ∧
    lsForward (fun _ => 0) (fun _ => 0) W1 (xCex 1) 1 = baseForward W1 (xCex 1) 1 :=
  C5_learned_scaling_identity W1 (xCex 1) 1 (by decide)

/-- Claim C8: for every position `p ≥ 1` and all `alpha`, `beta`,
`create_scaling` returns exactly `1 / ((1 + alpha*ln(p) + beta) * sqrt(head_dim))`
with `head_dim = dim / heads` and `base_scale = sqrt(head_dim)` fixed at
construction. -/
theorem C8_create_scaling_formula (dim heads : ℕ) (alpha beta : ℝ) (p : ℕ)
    (hp : 1 ≤ p) :
    create_scaling ((dim : ℝ) / (heads : ℝ)) alpha beta p =
      1 / ((1 + alpha * Real.log p + beta) * Real.sqrt ((dim : ℝ) / (heads : ℝ))) :=
  rfl

/-- Witness for C8 at `dim = 512`, `heads = 8`, `alpha = 2`, `beta = 3`, `p = 1`. -/
theorem C8_create_scaling_formula_witness :
    create_scaling (((512 : ℕ) : ℝ) / ((8 : ℕ) : ℝ)) 2 3 1 =
      1 / ((1 + 2 * Real.log (1 : ℕ) + 3) *
        Real.sqrt (((512 : ℕ) : ℝ) / ((8 : ℕ) : ℝ))) :=
  C8_create_scaling_formula 512 8 2 3 1 (by decide)

/-- Claim C9: two `AttentionRelativeScaling2` modules that differ only in the
`learned_bias` construction flag, holding equal `attn_bias` values and equal
projection weights, have identical forward outputs on every input: the flag
does not enter the forward computation. -/
theorem C9_learned_bias_flag_irrelevant {n h dh : ℕ} [NeZero dh]
    (P : AttnParams h dh) (bsl : ℝ) (bias : Fin h → ℝ) (f1 f2 : Bool)
    (x : Fin n → Fin (h * dh) → ℝ) :
    rs2Forward ⟨P, bsl, bias, f1⟩ x = rs2Forward ⟨P, bsl, bias, f2⟩ x := rfl

/-- Witness for C9 with the default module configuration and the two flag
values. -/
theorem C9_learned_bias_flag_irrelevant_witness :
    rs2Forward ⟨W1, 2048, fun _ => 1.5, true⟩ (xCex 1) =
      rs2Forward ⟨W1, 2048, fun _ => 1.5, false⟩ (xCex 1) :=
  C9_learned_bias_flag_irrelevant W1 2048 (fun _ => 1.5) true false (xCex 1)

lemma preScaledWeights_zero_row {n h dh : ℕ} (W : AttnParams h dh)
    (sF : Fin h → Fin n → ℝ) (x : Fin n → Fin (h * dh) → ℝ) (hd : Fin h)
    (i j : Fin n) (hsc : sF hd i = 0) (hj : j ≤ i) :
    preScaledWeights W sF x hd i j = 1 / (((Finset.Iic i).card : ℕ) : ℝ) := by
  unfold preScaledWeights causalSoftmax
  rw [if_pos hj]
  beta_reduce
  have hdot : ∀ j' : Fin n,
      dotProd (scaledQ W sF x hd i) (headsK W x hd j') * 1 = 0 := by
    intro j'
    unfold dotProd scaledQ
    rw [hsc]
    simp
  rw [hdot j, Real.exp_zero]
  congr 1
  rw [Finset.sum_congr rfl (fun j' _ => by rw [hdot j', Real.exp_zero])]
  rw [Finset.sum_const, nsmul_eq_mul, mul_one]

/-- Claim C10: `relative_scaling` (and `relative_scaling_2`, for any bias)
is exactly `0` at position index 1, because `log_base(1, base) = 0`; hence in
`AttentionRelativeScaling1/2` the position-1 query row is zeroed for every
input, and position 1's attention weights are exactly `1/2` on position 0 and
`1/2` on position 1, regardless of the input. -/
theorem C10_position_one_uniform_weights {n h dh : ℕ} (baseSeqLen : ℝ)
    (hb : 1 < baseSeqLen) (W : AttnParams h dh) (M : RS2Module h dh)
    (hb2 : 1 < M.base_seq_len) (x : Fin n → Fin (h * dh) → ℝ) (hd : Fin h)
    (i j : Fin n) (hi : (i : ℕ) = 1) (hj : j ≤ i) :
    relative_scaling (((h * dh : ℕ) : ℝ) / (h : ℝ)) baseSeqLen 1 = 0 ∧
    relative_scaling_2 (((h * dh : ℕ) : ℝ) / (h : ℝ)) (M.attn_bias hd)
      M.base_seq_len 1 = 0 ∧
    (∀ t, scaledQ W
      (fun _ i' => relative_scaling (((h * dh : ℕ) : ℝ) / (h : ℝ)) baseSeqLen i'.1)
      x hd i t = 0) ∧
    preScaledWeights W
      (fun _ i' => relative_scaling (((h * dh : ℕ) : ℝ) / (h : ℝ)) baseSeqLen i'.1)
      x hd i j = 1 / 2 ∧
    preScaledWeights M.params
      (fun hd' i' => relative_scaling_2 (((h * dh : ℕ) : ℝ) / (h : ℝ))
        (M.attn_bias hd') M.base_seq_len i'.1)
      x hd i j = 1 / 2 := by
  have hlb : ∀ base : ℝ, log_base ((1 : ℕ) : ℝ) base = 0 := by
    intro base
    unfold log_base
    rw [Nat.cast_one, Real.log_one, zero_div]
  have h1 : relative_scaling (((h * dh : ℕ) : ℝ) / (h : ℝ)) baseSeqLen 1 = 0 := by
    unfold relative_scaling
    rw [hlb, zero_div, Real.sqrt_zero]
  have h2 : ∀ bias : ℝ, relative_scaling_2 (((h * dh : ℕ) : ℝ) / (h : ℝ)) bias
      M.base_seq_len 1 = 0 := by
    intro bias
    unfold relative_scaling_2
    rw [hlb, zero_mul, zero_div, Real.sqrt_zero]
  have hcard : ((((Finset.Iic i).card : ℕ)) : ℝ) = 2 := by
    rw [Fin.card_Iic, hi]
    norm_num
  refine ⟨h1, h2 _, fun t => ?_, ?_, ?_⟩
  · show headsQ W x hd i t *
      relative_scaling (((h * dh : ℕ) : ℝ) / (h : ℝ)) baseSeqLen i.1 = 0
    rw [hi, h1, mul_zero]
  · rw [preScaledWeights_zero_row W _ x hd i j
      (show relative_scaling (((h * dh : ℕ) : ℝ) / (h : ℝ)) baseSeqLen i.1 = 0 by
        rw [hi]; exact h1) hj, hcard]
  · rw [preScaledWeights_zero_row M.params _ x hd i j
      (show relative_scaling_2 (((h * dh : ℕ) : ℝ) / (h : ℝ)) (M.attn_bias hd)
          M.base_seq_len i.1 = 0 by
        rw [hi]; exact h2 _) hj, hcard]

/-- Witness for C10 at `n = 2`, `base_seq_len = 2048`, the concrete module
`M1`, input `xCex 1`, head 0, `i = 1`, `j = 0`. -/
theorem C10_position_one_uniform_weights_witness :
    relative_scaling (((1 * 1 : ℕ) : ℝ) / ((1 : ℕ) : ℝ)) 2048 1 = 0 ∧
    relative_scaling_2 (((1 * 1 : ℕ) : ℝ) / ((1 : ℕ) : ℝ)) (M1.attn_bias 0)
      M1.base_seq_len 1 = 0 ∧
    (∀ t, scaledQ W1
      (fun _ i' => relative_scaling (((1 * 1 : ℕ) : ℝ) / ((1 : ℕ) : ℝ)) 2048 i'.1)
      (xCex 1) 0 (1 : Fin 2) t = 0) ∧
    preScaledWeights W1
      (fun _ i' => relative_scaling (((1 * 1 : ℕ) : ℝ) / ((1 : ℕ) : ℝ)) 2048 i'.1)
      (xCex 1) 0 (1 : Fin 2) (0 : Fin 2) = 1 / 2 ∧
    preScaledWeights M1.params
      (fun hd' i' => relative_scaling_2 (((1 * 1 : ℕ) : ℝ) / ((1 : ℕ) : ℝ))
        (M1.attn_bias hd') M1.base_seq_len i'.1)
      (xCex 1) 0 (1 : Fin 2) (0 : Fin 2) = 1 / 2 :=
  C10_position_one_uniform_weights 2048 (by norm_num) W1 M1 (by norm_num [M1])
    (xCex 1) 0 (1 : Fin 2) (0 : Fin 2) rfl (by decide)

/-! ### IEEE special values at position 0

The scaling functions are applied to `arange(n)`, whose first entry is `0`,
and `torch.log(0) = -inf`.  To settle the claims about the resulting
non-finite values, the relevant arithmetic is re-embedded over an extended
value type with the IEEE-754 special-case semantics that torch's elementwise
kernels follow (`0 * inf = NaN`, `log(0) = -inf`, and — because ATen's
`pow_tensor_scalar_kernel` dispatches the exponent `0.5` to its `sqrt`
kernel — `x ** 0.5 = sqrt(x)`, which is `NaN` for every `x < 0` including
`-inf`). -/

/-- An IEEE-style scalar: a finite real, `+inf`, `-inf`, or `NaN`.  Finite
arithmetic is exact (no rounding or overflow is modelled). -/
inductive EFloat where
  | real : ℝ → EFloat
  | posInf : EFloat
  | negInf : EFloat
  | nan : EFloat

open EFloat

/-- IEEE addition. -/
def eadd : EFloat → EFloat → EFloat
  | nan, _ => nan
  | _, nan => nan
  | real a, real b => real (a + b)
  | real _, posInf => posInf
  | real _, negInf => negInf
  | posInf, real _ => posInf
  | posInf, posInf => posInf
  | posInf, negInf => nan
  | negInf, real _ => negInf
  | negInf, posInf => nan
  | negInf, negInf => negInf

/-- IEEE multiplication; `0 * (±inf) = NaN`. -/
def emul : EFloat → EFloat → EFloat
  | nan, _ => nan
  | _, nan => nan
  | real a, real b => real (a * b)
  | real a, posInf => if 0 < a then posInf else if a < 0 then negInf else nan
  | real a, negInf => if 0 < a then negInf else if a < 0 then posInf else nan
  | posInf, real b => if 0 < b then posInf else if b < 0 then negInf else nan
  | negInf, real b => if 0 < b then negInf else if b < 0 then posInf else nan
  | posInf, posInf => posInf
  | posInf, negInf => negInf
  | negInf, posInf => negInf
  | negInf, negInf => posInf

/-- IEEE division; signed zeros are not modelled, `x / 0` takes the sign of
`x` (`0 / 0 = NaN`), `±inf / ±inf = NaN`. -/
def ediv : EFloat → EFloat → EFloat
  | nan, _ => nan
  | _, nan => nan
  | real a, real b =>
      if b = 0 then (if 0 < a then posInf else if a < 0 then negInf else nan)
      else real (a / b)
  | real _, posInf => real 0
  | real _, negInf => real 0
  | posInf, real b => if 0 ≤ b then posInf else negInf
  | posInf, posInf => nan
  | posInf, negInf => nan
  | negInf, real b => if 0 ≤ b then negInf else posInf
  | negInf, posInf => nan
  | negInf, negInf => nan

/-- IEEE `log`: `log(0) = -inf`, `log(x) = NaN` for `x < 0`. -/
def elog : EFloat → EFloat
  | nan => nan
  | posInf => posInf
  | negInf => nan
  | real a => if 0 < a then real (Real.log a) else if a = 0 then negInf else nan

/-- The operation `** 0.5` as torch computes it: ATen's
`pow_tensor_scalar_kernel` special-cases the exponent `0.5` to the `sqrt`
kernel, so this is IEEE `sqrt`: `sqrt(+inf) = +inf`, and `sqrt(x) = NaN`
for every `x < 0`, including `sqrt(-inf) = NaN` (unlike C's
`pow(-inf, 0.5) = +inf`). -/
def epowHalf : EFloat → EFloat
  | nan => nan
  | posInf => posInf
  | negInf => nan
  | real a => if 0 ≤ a then real (Real.sqrt a) else nan

/-- IEEE `pow(x, 2)` (torch's `** 2`): `pow(±inf, 2) = +inf`. -/
def esq : EFloat → EFloat
  | nan => nan
  | posInf => posInf
  | negInf => posInf
  | real a => real (a ^ 2)

/-- Whether an `EFloat` is a finite value. -/
def isFinite : EFloat → Bool
  | real _ => true
  | _ => false

/-- `log_base` (lines 8-10) with IEEE special values in the `x` slot. -/
def log_baseE (x : EFloat) (base : ℝ) : EFloat :=
  ediv (elog x) (elog (real base))

/-- `yarn_scaling` (lines 32-36) at one IEEE position value. -/
def yarn_scalingE (p : EFloat) (headDim : ℝ) : EFloat :=
  ediv (esq (eadd (emul (real 0.1) (elog p)) (real 1))) (real (Real.sqrt headDim))

/-- `relative_scaling` (lines 39-43) at one IEEE position value. -/
def relative_scalingE (p : EFloat) (headDim baseSeqLen : ℝ) : EFloat :=
  epowHalf (ediv (log_baseE p baseSeqLen) (real headDim))

/-- `relative_scaling_2` (lines 46-51) at one IEEE position value. -/
def relative_scaling_2E (p : EFloat) (headDim bias baseSeqLen : ℝ) : EFloat :=
  epowHalf (ediv (emul (log_baseE p baseSeqLen) (real bias)) (real headDim))

/-- `AttentionLearnedScaling.create_scaling` (lines 215-225) at one IEEE
position value: `1 / ((1 + alpha * log(p) + beta) * sqrt(head_dim))`. -/
def create_scalingE (p : EFloat) (headDim alpha beta : ℝ) : EFloat :=
  ediv (real 1)
    (emul (eadd (eadd (real 1) (emul (real alpha) (elog p))) (real beta))
      (real (Real.sqrt headDim)))

lemma elog_real_zero : elog (real 0) = negInf := by
  show (if (0:ℝ) < 0 then real (Real.log 0) else if (0:ℝ) = 0 then negInf else nan)
    = negInf
  rw [if_neg (lt_irrefl 0), if_pos rfl]

lemma elog_real_pos {a : ℝ} (ha : 0 < a) : elog (real a) = real (Real.log a) := by
  show (if 0 < a then real (Real.log a) else if a = 0 then negInf else nan)
    = real (Real.log a)
  rw [if_pos ha]

lemma emul_real_zero_negInf : emul (real 0) negInf = nan := by
  show (if (0:ℝ) < 0 then negInf else if (0:ℝ) < 0 then posInf else nan) = nan
  rw [if_neg (lt_irrefl 0), if_neg (lt_irrefl 0)]

lemma emul_pos_real_negInf {a : ℝ} (ha : 0 < a) : emul (real a) negInf = negInf := by
  show (if 0 < a then negInf else if a < 0 then posInf else nan) = negInf
  rw [if_pos ha]

lemma emul_negInf_pos_real {b : ℝ} (hb : 0 < b) : emul negInf (real b) = negInf := by
  show (if 0 < b then negInf else if b < 0 then posInf else nan) = negInf
  rw [if_pos hb]

lemma ediv_negInf_nonneg_real {b : ℝ} (hb : 0 ≤ b) : ediv negInf (real b) = negInf := by
  show (if 0 ≤ b then negInf else posInf) = negInf
  rw [if_pos hb]

lemma ediv_posInf_nonneg_real {b : ℝ} (hb : 0 ≤ b) : ediv posInf (real b) = posInf := by
  show (if 0 ≤ b then posInf else negInf) = posInf
  rw [if_pos hb]

lemma emul_real_posInf_nonfinite (c : ℝ) : isFinite (emul (real c) posInf) = false := by
  show isFinite (if 0 < c then posInf else if c < 0 then negInf else nan) = false
  rcases lt_trichotomy c 0 with hc | hc | hc
  · rw [if_neg (not_lt.mpr (le_of_lt hc)), if_pos hc]
    rfl
  · subst hc
    rw [if_neg (lt_irrefl 0), if_neg (lt_irrefl 0)]
    rfl
  · rw [if_pos hc]
    rfl

/-- Counterexample for C5: in IEEE semantics, `create_scaling` with
`alphas = betas = 0` at position 0 (and `head_dim = 1`) evaluates to `NaN`
(`0 * log(0) = 0 * (-inf) = NaN`), not to `1/sqrt(head_dim)`. -/
theorem C5_create_scaling_nan_at_position_zero :
    create_scalingE (real 0) 1 0 0 = EFloat.nan ∧
    EFloat.nan ≠ EFloat.real (1 / Real.sqrt 1) := by
  constructor
  · unfold create_scalingE
    rw [elog_real_zero, emul_real_zero_negInf]
    rfl
  · exact fun hcontra => EFloat.noConfusion hcontra

lemma log_baseE_zero {base : ℝ} (hb : 1 < base) :
    log_baseE (real 0) base = negInf := by
  unfold log_baseE
  rw [elog_real_zero, elog_real_pos (by linarith)]
  exact ediv_negInf_nonneg_real (Real.log_nonneg hb.le)

lemma emul_real_nan_nonfinite (c : ℝ) : isFinite (emul (real c) nan) = false :=
  rfl

/-- Claim C6: at position index 0 the logarithm-based scaling functions
produce non-finite values that propagate silently, with no guard and no
exception: `yarn_scaling` yields `+inf` at index 0 (`ln(0) = -inf`,
`0.1*(-inf)+1 = -inf`, then squared to `+inf`), while `relative_scaling` and
`relative_scaling_2` (with positive bias) yield `NaN` at index 0
(`** 0.5` is torch's `sqrt`, and the square root of the `-inf` quotient is
`NaN`); the last two conjuncts show the non-finite scales flow on unchecked:
every scaled query entry `q * scale` at position 0 is non-finite. -/
theorem C6_position_zero_scales_nonfinite (headDim baseSeqLen bias : ℝ)
    (hhd : 0 < headDim) (hb : 1 < baseSeqLen) :
    yarn_scalingE (real 0) headDim = EFloat.posInf ∧
    relative_scalingE (real 0) headDim baseSeqLen = EFloat.nan ∧
    (0 < bias → relative_scaling_2E (real 0) headDim bias baseSeqLen = EFloat.nan) ∧
    (∀ c : ℝ,
      isFinite (emul (real c) (yarn_scalingE (real 0) headDim)) = false) ∧
    (∀ c : ℝ,
      isFinite (emul (real c) (relative_scalingE (real 0) headDim baseSeqLen)) =
        false) := by
  have hyarn : yarn_scalingE (real 0) headDim = EFloat.posInf := by
    unfold yarn_scalingE
    rw [elog_real_zero, emul_pos_real_negInf (by norm_num : (0:ℝ) < 0.1)]
    show ediv posInf (real (Real.sqrt headDim)) = posInf
    exact ediv_posInf_nonneg_real (Real.sqrt_nonneg headDim)
  have hrel : relative_scalingE (real 0) headDim baseSeqLen = EFloat.nan := by
    unfold relative_scalingE
    rw [log_baseE_zero hb, ediv_negInf_nonneg_real hhd.le]
    rfl
  have hrel2 : 0 < bias →
      relative_scaling_2E (real 0) headDim bias baseSeqLen = EFloat.nan := by
    intro hbias
    unfold relative_scaling_2E
    rw [log_baseE_zero hb, emul_negInf_pos_real hbias,
      ediv_negInf_nonneg_real hhd.le]
    rfl
  refine ⟨hyarn, hrel, hrel2, fun c => ?_, fun c => ?_⟩
  · rw [hyarn]
    exact emul_real_posInf_nonfinite c
  · rw [hrel]
    exact emul_real_nan_nonfinite c

/-- Witness for C6 at the default configuration `head_dim = 512/8 = 64`,
`base_seq_len = 2048`, `attn_bias = 1.5`, query entry `1`. -/
theorem C6_position_zero_scales_nonfinite_witness :
    yarn_scalingE (real 0) 64 = EFloat.posInf ∧
    relative_scalingE (real 0) 64 2048 = EFloat.nan ∧
    relative_scaling_2E (real 0) 64 1.5 2048 = EFloat.nan ∧
    isFinite (emul (real 1) (yarn_scalingE (real 0) 64)) = false ∧
    isFinite (emul (real 1) (relative_scalingE (real 0) 64 2048)) = false := by
  obtain ⟨h1, h2, h3, h4, h5⟩ :=
    C6_position_zero_scales_nonfinite 64 2048 1.5 (by norm_num) (by norm_num)
  exact ⟨h1, h2, h3 (by norm_num), h4 1, h5 1⟩

/-- The causal mask of the three manually-masked variants, at the IEEE value
level: strictly-upper-triangular entries are filled with the finite value
`-fm` (`-torch.finfo(dtype).max`). -/
def maskedSimE {n : ℕ} (fm : ℝ) (sim : Fin n → Fin n → EFloat) :
    Fin n → Fin n → EFloat :=
  fun i j => if i < j then EFloat.real (-fm) else sim i j

/-- Claim C7: in the three manually-masked variants every
strictly-upper-triangular entry of the masked similarity matrix equals the
finite value `-finfo(dtype).max` — never `-inf`; entries with `j ≤ i` are
untouched; if every unmasked entry is finite then every entry of the masked
matrix is finite.  The last conjunct states the same fill value for the
exact-real `maskedSim` used by the variants' forward embeddings. -/
theorem C7_mask_most_negative_finite {n : ℕ} (fm : ℝ) :
    (∀ (simE : Fin n → Fin n → EFloat) (i j : Fin n), i < j →
      maskedSimE fm simE i j = EFloat.real (-fm) ∧
      maskedSimE fm simE i j ≠ EFloat.negInf) ∧
    (∀ (simE : Fin n → Fin n → EFloat) (i j : Fin n), ¬ i < j →
      maskedSimE fm simE i j = simE i j) ∧
    (∀ simE : Fin n → Fin n → EFloat,
      (∀ i j : Fin n, ¬ i < j → isFinite (simE i j) = true) →
      ∀ i j : Fin n, isFinite (maskedSimE fm simE i j) = true) ∧
    (∀ (sim : Fin n → Fin n → ℝ) (i j : Fin n), i < j →
      maskedSim fm sim i j = -fm) := by
  refine ⟨fun simE i j hij => ?_, fun simE i j hij => ?_,
    fun simE hfin i j => ?_, fun sim i j hij => ?_⟩
  · unfold maskedSimE
    rw [if_pos hij]
    exact ⟨rfl, fun hcontra => EFloat.noConfusion hcontra⟩
  · unfold maskedSimE
    rw [if_neg hij]
  · unfold maskedSimE
    by_cases hij : i < j
    · rw [if_pos hij]
      rfl
    · rw [if_neg hij]
      exact hfin i j hij
  · unfold maskedSim
    rw [if_pos hij]

/-- Witness for C7 at `n = 2`, `fm = finfo(float32).max`, the all-zero
similarity matrix, entry `(0, 1)`. -/
theorem C7_mask_most_negative_finite_witness :
    maskedSimE fmaxF32 (fun _ _ => EFloat.real 0) (0 : Fin 2) 1 =
      EFloat.real (-fmaxF32) ∧
    isFinite (maskedSimE fmaxF32 (fun _ _ => EFloat.real 0) (0 : Fin 2) 1) = true ∧
    maskedSim fmaxF32 (fun _ _ => (0:ℝ)) (0 : Fin 2) 1 = -fmaxF32 :=
  ⟨((C7_mask_most_negative_finite fmaxF32).1 (fun _ _ => EFloat.real 0) 0 1
      (by decide)).1,
   (C7_mask_most_negative_finite fmaxF32).2.2.1 (fun _ _ => EFloat.real 0)
      (fun _ _ _ => rfl) 0 1,
   (C7_mask_most_negative_finite fmaxF32).2.2.2 (fun _ _ => (0:ℝ)) 0 1
      (by decide)⟩

end CalAttn
